import Mathlib

/-!
Verification of the observability federation proxy against its design notes.

The Go sources are shallowly embedded: strings are modelled as Lean strings
(one Lean character per Go byte, which is exact for the ASCII data these
functions handle), Go maps such as http.Header and url.Values are modelled as
association lists with pairwise distinct keys, and each Go function is
translated into an executable Lean definition that mirrors its control flow.
-/

namespace ObsProxy

/-! ## String primitives

Models of the Go string operations used by the proxy: byte slicing,
strings.Join, strings.TrimPrefix of net/http paths, and the byte-wise
lexicographic comparison that sort.Strings uses. -/

/-- Model of the Go slice expression s[:n] (first n units of s). -/
def strTakeChars (s : String) (n : Nat) : String :=
  ⟨s.data.take n⟩

/-- Model of the Go slice expression s[n:] (drop the first n units of s). -/
def strDropChars (s : String) (n : Nat) : String :=
  ⟨s.data.drop n⟩

/-- Model of Go strings.TrimPrefix: remove pre from the front of s when it is
there, otherwise return s unchanged. -/
def goTrimPfx (s pre : String) : String :=
  if pre.data.isPrefixOf s.data then strDropChars s pre.length else s

/-- Model of Go strings.Join as well as of the strings.Builder loops in this
repository: the separator is written between consecutive elements only. -/
def goJoin (sep : String) : List String → String
  | [] => ""
  | s :: rest => rest.foldl (fun acc t => acc ++ sep ++ t) s

/-- Pipe separated concatenation with a leading separator before every
element; the shape the truncation loop of the watcher accumulates after its
first element. -/
def sepcat (l : List String) : String :=
  l.foldl (fun acc t => acc ++ "|" ++ t) ""

/-- Byte-wise lexicographic less-or-equal on the underlying units, the order
sort.Strings uses on Go strings. -/
def lexLe : List Char → List Char → Bool
  | [], _ => true
  | _ :: _, [] => false
  | a :: as, b :: bs =>
    if a.toNat < b.toNat then true
    else if b.toNat < a.toNat then false
    else lexLe as bs

/-- Byte-wise lexicographic strictly-less on the underlying units. -/
def lexLt : List Char → List Char → Bool
  | _, [] => false
  | [], _ :: _ => true
  | a :: as, b :: bs =>
    if a.toNat < b.toNat then true
    else if b.toNat < a.toNat then false
    else lexLt as bs

/-- The order sort.Strings sorts by, on the string model. -/
def strLexLe (a b : String) : Prop :=
  lexLe a.data b.data = true

/-- Strict version of the sort.Strings order, for stating strict increase. -/
def strLexLt (a b : String) : Prop :=
  lexLt a.data b.data = true

instance : DecidableRel strLexLe := fun a b =>
  inferInstanceAs (Decidable (lexLe a.data b.data = true))

instance : DecidableRel strLexLt := fun a b =>
  inferInstanceAs (Decidable (lexLt a.data b.data = true))

theorem lexLe_total : ∀ as bs : List Char, lexLe as bs = true ∨ lexLe bs as = true
  | [], _ => Or.inl rfl
  | _ :: _, [] => Or.inr rfl
  | a :: as, b :: bs => by
    by_cases hab : a.toNat < b.toNat
    · exact Or.inl (by simp [lexLe, hab])
    · by_cases hba : b.toNat < a.toNat
      · exact Or.inr (by simp [lexLe, hba, hab])
      · rcases lexLe_total as bs with h | h
        · exact Or.inl (by simp [lexLe, hab, hba, h])
        · exact Or.inr (by simp [lexLe, hab, hba, h])

theorem lexLe_trans : ∀ as bs cs : List Char,
    lexLe as bs = true → lexLe bs cs = true → lexLe as cs = true
  | [], _, _, _, _ => rfl
  | _ :: _, [], _, h, _ => by simp [lexLe] at h
  | _ :: _, _ :: _, [], _, h => by simp [lexLe] at h
  | a :: as, b :: bs, c :: cs, h1, h2 => by
    simp only [lexLe] at h1 h2 ⊢
    rcases Nat.lt_trichotomy a.toNat b.toNat with hab | hab | hab
    · have hbc : ¬ c.toNat < b.toNat := by
        intro hc
        simp [if_neg (Nat.lt_asymm hc), if_pos hc] at h2
      simp [if_pos (by omega : a.toNat < c.toNat)]
    · rcases Nat.lt_trichotomy b.toNat c.toNat with hbc | hbc | hbc
      · simp [if_pos (by omega : a.toNat < c.toNat)]
      · have h1' : lexLe as bs = true := by
          simp [if_neg (by omega : ¬ a.toNat < b.toNat),
            if_neg (by omega : ¬ b.toNat < a.toNat)] at h1
          exact h1
        have h2' : lexLe bs cs = true := by
          simp [if_neg (by omega : ¬ b.toNat < c.toNat),
            if_neg (by omega : ¬ c.toNat < b.toNat)] at h2
          exact h2
        simp [if_neg (by omega : ¬ a.toNat < c.toNat),
          if_neg (by omega : ¬ c.toNat < a.toNat)]
        exact lexLe_trans as bs cs h1' h2'
      · simp [if_neg (by omega : ¬ b.toNat < c.toNat), if_pos hbc] at h2
    · simp [if_neg (by omega : ¬ a.toNat < b.toNat), if_pos hab] at h1

/-- Characters with equal unit values are equal. -/
theorem char_toNat_inj {a b : Char} (h : a.toNat = b.toNat) : a = b :=
  Char.eq_of_val_eq (UInt32.ext h)

theorem lexLe_antisymm : ∀ as bs : List Char,
    lexLe as bs = true → lexLe bs as = true → as = bs
  | [], [], _, _ => rfl
  | [], _ :: _, _, h => by simp [lexLe] at h
  | _ :: _, [], h, _ => by simp [lexLe] at h
  | a :: as, b :: bs, h1, h2 => by
    simp only [lexLe] at h1 h2
    rcases Nat.lt_trichotomy a.toNat b.toNat with hab | hab | hab
    · simp [if_neg (Nat.lt_asymm hab), if_pos hab] at h2
    · have h1' : lexLe as bs = true := by
        simp [if_neg (by omega : ¬ a.toNat < b.toNat),
          if_neg (by omega : ¬ b.toNat < a.toNat)] at h1
        exact h1
      have h2' : lexLe bs as = true := by
        simp [if_neg (by omega : ¬ b.toNat < a.toNat),
          if_neg (by omega : ¬ a.toNat < b.toNat)] at h2
        exact h2
      rw [char_toNat_inj hab, lexLe_antisymm as bs h1' h2']
    · simp [if_neg (Nat.lt_asymm hab), if_pos hab] at h1

theorem lexLt_of_le_of_ne : ∀ as bs : List Char,
    lexLe as bs = true → as ≠ bs → lexLt as bs = true
  | [], [], _, hne => absurd rfl hne
  | [], _ :: _, _, _ => rfl
  | _ :: _, [], h, _ => by simp [lexLe] at h
  | a :: as, b :: bs, h1, hne => by
    simp only [lexLe] at h1
    simp only [lexLt]
    rcases Nat.lt_trichotomy a.toNat b.toNat with hab | hab | hab
    · simp [if_pos hab]
    · have h1' : lexLe as bs = true := by
        simp [if_neg (by omega : ¬ a.toNat < b.toNat),
          if_neg (by omega : ¬ b.toNat < a.toNat)] at h1
        exact h1
      have hne' : as ≠ bs := by
        intro h
        exact hne (by rw [char_toNat_inj hab, h])
      simp [if_neg (by omega : ¬ a.toNat < b.toNat),
        if_neg (by omega : ¬ b.toNat < a.toNat)]
      exact lexLt_of_le_of_ne as bs h1' hne'
    · simp [if_neg (Nat.lt_asymm hab), if_pos hab] at h1

instance : IsTotal String strLexLe :=
  ⟨fun a b => lexLe_total a.data b.data⟩

instance : IsTrans String strLexLe :=
  ⟨fun a b c => lexLe_trans a.data b.data c.data⟩

theorem strLexLt_of_le_of_ne {a b : String} (h : strLexLe a b) (hne : a ≠ b) :
    strLexLt a b :=
  lexLt_of_le_of_ne a.data b.data h fun hd => hne (by cases a; cases b; exact congrArg String.mk hd)

/-! ## Tenant watcher, from internal/tenant/watcher.go

Compiled regular expressions are modelled as their match functions of type
String to Bool; the watcher only ever calls MatchString on them. The
namespace objects listed from the informer cache are modelled by their
names. -/

/-- Translation of Watcher.shouldInclude: when include patterns are present
the name must match at least one of them, and no exclude pattern may match. -/
def shouldInclude (includePats excludePats : List (String → Bool)) (name : String) : Bool :=
  (if 0 < includePats.length then includePats.any (fun re => re name) else true)
  && excludePats.all (fun re => !(re name))

/-- Model of sort.Strings: sort in the byte-wise lexicographic order. A sort
returns the sorted permutation of its input, which is unique because the
order is total and antisymmetric, so insertion sort computes exactly the
list sort.Strings produces. -/
def sortStrings (l : List String) : List String :=
  l.insertionSort strLexLe

/-- Translation of Watcher.refreshTenants, from the listed namespace names to
the new tenant slice: keep the names shouldInclude admits, then sort. -/
def refreshTenants (includePats excludePats : List (String → Bool))
    (namespaceNames : List String) : List String :=
  sortStrings (namespaceNames.filter (shouldInclude includePats excludePats))

/-- The admission condition of the filter pair written as the design notes
state it, used to compare shouldInclude against the specified predicate. -/
theorem shouldInclude_iff (includePats excludePats : List (String → Bool)) (name : String) :
    shouldInclude includePats excludePats name = true ↔
      ((includePats = [] ∨ ∃ re ∈ includePats, re name = true)
        ∧ ∀ re ∈ excludePats, re name = false) := by
  cases includePats with
  | nil =>
    simp [shouldInclude, List.all_eq_true]
  | cons p ps =>
    simp [shouldInclude, List.any_eq_true, List.all_eq_true]

/-- C4: a namespace name is admitted by the watcher's compiled filter pair
iff (the include list is empty or at least one include pattern matches) and
no exclude pattern matches; with zero include patterns every name is
admitted subject only to the excludes. -/
theorem C4_filter_admission (includePats excludePats : List (String → Bool)) (name : String) :
    (shouldInclude includePats excludePats name = true ↔
      ((includePats = [] ∨ ∃ re ∈ includePats, re name = true)
        ∧ ∀ re ∈ excludePats, re name = false))
    ∧ (shouldInclude [] excludePats name = true ↔ ∀ re ∈ excludePats, re name = false) := by
  constructor
  · exact shouldInclude_iff includePats excludePats name
  · rw [shouldInclude_iff]
    simp

/-- C8: the tenant list recomputed from a duplicate-free list of nonempty
namespace names (what the informer cache, which stores each namespace once
under its validated name, hands to refreshTenants) is strictly increasing in
the byte-wise lexicographic order and duplicate-free, every member is
admitted by the include patterns and rejected by none of the exclude
patterns, and the empty string is never a member. -/
theorem C8_refresh_invariants (includePats excludePats : List (String → Bool))
    (namespaceNames : List String)
    (hnodup : namespaceNames.Nodup) (hempty : "" ∉ namespaceNames) :
    List.Pairwise strLexLt (refreshTenants includePats excludePats namespaceNames)
    ∧ (refreshTenants includePats excludePats namespaceNames).Nodup
    ∧ ∀ t ∈ refreshTenants includePats excludePats namespaceNames,
        (includePats = [] ∨ ∃ re ∈ includePats, re t = true)
          ∧ (∀ re ∈ excludePats, re t = false) ∧ t ≠ "" := by
  have hperm : (refreshTenants includePats excludePats namespaceNames).Perm
      (namespaceNames.filter (shouldInclude includePats excludePats)) :=
    List.perm_insertionSort strLexLe _
  have hsorted : List.Sorted strLexLe (refreshTenants includePats excludePats namespaceNames) :=
    List.sorted_insertionSort strLexLe _
  have hnd : (refreshTenants includePats excludePats namespaceNames).Nodup :=
    hperm.nodup_iff.mpr (hnodup.filter _)
  refine ⟨?_, hnd, ?_⟩
  · exact (hsorted.and hnd).imp fun h => strLexLt_of_le_of_ne h.1 h.2
  · intro t ht
    have htf := hperm.subset ht
    rw [List.mem_filter] at htf
    have hmem := (shouldInclude_iff includePats excludePats t).mp htf.2
    exact ⟨hmem.1, hmem.2, fun h => hempty (h ▸ htf.1)⟩

/-- Closed instance of C8 on the namespace set of the first end-to-end
scenario of the design notes. -/
theorem C8_refresh_invariants_witness :
    (["kube-system", "game-prod"] : List String).Nodup
    ∧ ("" ∉ (["kube-system", "game-prod"] : List String))
    ∧ (List.Pairwise strLexLt (refreshTenants [fun s => s.startsWith "game-"]
          [fun s => s.startsWith "kube-"] ["kube-system", "game-prod"])
      ∧ (refreshTenants [fun s => s.startsWith "game-"]
          [fun s => s.startsWith "kube-"] ["kube-system", "game-prod"]).Nodup
      ∧ ∀ t ∈ refreshTenants [fun s => s.startsWith "game-"]
          [fun s => s.startsWith "kube-"] ["kube-system", "game-prod"],
          (([fun s => s.startsWith "game-"] : List (String → Bool)) = []
              ∨ ∃ re ∈ ([fun s => s.startsWith "game-"] : List (String → Bool)), re t = true)
            ∧ (∀ re ∈ ([fun s => s.startsWith "kube-"] : List (String → Bool)), re t = false)
            ∧ t ≠ "") :=
  ⟨by decide, by decide,
    C8_refresh_invariants [fun s => s.startsWith "game-"] [fun s => s.startsWith "kube-"]
      ["kube-system", "game-prod"] (by decide) (by decide)⟩

/-! ## Scope header builder, from internal/tenant/watcher.go

Watcher.BuildOrgIDHeader joins the tenant list with the pipe separator and,
when a positive cap is exceeded, hands the list to truncateOrgIDHeader,
whose strings.Builder loop is modelled by truncateLoop below. -/

/-- Translation of the loop body of Watcher.truncateOrgIDHeader for the
positions after the first: stop at the first tenant whose separator and text
would push the accumulated length past the cap. -/
def truncateLoop (maxLength : Nat) : List String → String → String
  | [], result => result
  | t :: rest, result =>
    if maxLength < result.length + 1 + t.length then result
    else truncateLoop maxLength rest (result ++ "|" ++ t)

/-- Translation of Watcher.truncateOrgIDHeader: the first tenant is truncated
to the cap when it alone is too long, otherwise it seeds the loop. -/
def truncateOrgIDHeader (tenants : List String) (maxLength : Nat) : String :=
  match tenants with
  | [] => ""
  | t :: rest =>
    if maxLength < t.length then strTakeChars t maxLength
    else truncateLoop maxLength rest t

/-- Translation of Watcher.BuildOrgIDHeader. The cap is the Go int
maxLength; truncation happens only when it is positive and the joined header
is longer. -/
def buildOrgIDHeader (tenants : List String) (maxLength : Int) : String :=
  if tenants.length = 0 then ""
  else
    let header := goJoin "|" tenants
    if 0 < maxLength ∧ maxLength < (header.length : Int) then
      truncateOrgIDHeader tenants maxLength.toNat
    else header

theorem sep_foldl_shift (l : List String) : ∀ a b : String,
    l.foldl (fun acc t => acc ++ "|" ++ t) (a ++ b)
      = a ++ l.foldl (fun acc t => acc ++ "|" ++ t) b := by
  induction l with
  | nil => intro a b; simp
  | cons t l ih =>
    intro a b
    simp only [List.foldl_cons]
    rw [String.append_assoc a b "|", String.append_assoc a (b ++ "|") t]
    exact ih a ((b ++ "|") ++ t)

theorem sepcat_eq_foldl (l : List String) (a : String) :
    l.foldl (fun acc t => acc ++ "|" ++ t) a = a ++ sepcat l := by
  have h := sep_foldl_shift l a ""
  rw [String.append_empty] at h
  exact h

theorem goJoin_pipe_cons (t : String) (rest : List String) :
    goJoin "|" (t :: rest) = t ++ sepcat rest :=
  sepcat_eq_foldl rest t

theorem sepcat_cons (t : String) (rest : List String) :
    sepcat (t :: rest) = ("|" ++ t) ++ sepcat rest := by
  show (t :: rest).foldl (fun acc s => acc ++ "|" ++ s) "" = _
  simp only [List.foldl_cons]
  rw [String.empty_append]
  exact sepcat_eq_foldl rest ("|" ++ t)

@[simp] theorem length_pipe : ("|" : String).length = 1 := rfl

theorem length_sepcat_cons (t : String) (rest : List String) :
    (sepcat (t :: rest)).length = 1 + t.length + (sepcat rest).length := by
  rw [sepcat_cons, String.length_append, String.length_append, length_pipe]

theorem length_goJoin_pipe_cons (t : String) (rest : List String) :
    (goJoin "|" (t :: rest)).length = t.length + (sepcat rest).length := by
  rw [goJoin_pipe_cons, String.length_append]

theorem strTakeChars_length_of_le (s : String) (n : Nat) (h : n ≤ s.length) :
    (strTakeChars s n).length = n := by
  show (s.data.take n).length = n
  have hs : s.length = s.data.length := rfl
  rw [List.length_take]
  omega

/-- The builder loop of truncateOrgIDHeader keeps the largest prefix of the
remaining tenants that still fits the cap behind the accumulated text. -/
theorem truncateLoop_spec (maxLength : Nat) :
    ∀ (rest : List String) (acc : String), acc.length ≤ maxLength →
      ∃ k, k ≤ rest.length
        ∧ truncateLoop maxLength rest acc = acc ++ sepcat (rest.take k)
        ∧ (acc ++ sepcat (rest.take k)).length ≤ maxLength
        ∧ ∀ j, j ≤ rest.length →
            (acc ++ sepcat (rest.take j)).length ≤ maxLength → j ≤ k := by
  intro rest
  induction rest with
  | nil =>
    intro acc hacc
    refine ⟨0, Nat.le_refl _, ?_, ?_, ?_⟩
    · simp [truncateLoop, sepcat, String.append_empty]
    · simpa [sepcat, String.append_empty] using hacc
    · intro j hj _
      simpa using hj
  | cons t rest ih =>
    intro acc hacc
    by_cases hbr : maxLength < acc.length + 1 + t.length
    · refine ⟨0, Nat.zero_le _, ?_, ?_, ?_⟩
      · simp [truncateLoop, if_pos hbr, sepcat, String.append_empty]
      · simpa [sepcat, String.append_empty] using hacc
      · intro j hj hlen
        cases j with
        | zero => exact Nat.le_refl 0
        | succ j' =>
          exfalso
          rw [List.take_succ_cons] at hlen
          simp only [String.length_append, length_sepcat_cons] at hlen
          omega
    · have hacc' : (acc ++ "|" ++ t).length ≤ maxLength := by
        simp only [String.length_append, length_pipe]
        omega
      obtain ⟨k, hk, heq, hlen, hmax⟩ := ih (acc ++ "|" ++ t) hacc'
      have hstep : truncateLoop maxLength (t :: rest) acc
          = truncateLoop maxLength rest (acc ++ "|" ++ t) := by
        simp [truncateLoop, if_neg hbr]
      refine ⟨k + 1, Nat.succ_le_succ hk, ?_, ?_, ?_⟩
      · rw [hstep, heq, List.take_succ_cons, sepcat_cons,
          ← String.append_assoc acc ("|" ++ t) (sepcat (rest.take k)),
          ← String.append_assoc acc "|" t]
      · rw [List.take_succ_cons]
        simp only [String.length_append, length_sepcat_cons, length_pipe] at hlen ⊢
        omega
      · intro j hj hlenj
        cases j with
        | zero => exact Nat.zero_le _
        | succ j' =>
          have hj' : j' ≤ rest.length := by
            simpa using hj
          rw [List.take_succ_cons] at hlenj
          simp only [String.length_append, length_sepcat_cons] at hlenj
          refine Nat.succ_le_succ (hmax j' hj' ?_)
          simp only [String.length_append, length_pipe]
          omega

theorem truncate_fits (t : String) (rest : List String) (M : Nat) (h : t.length ≤ M) :
    ∃ k, k + 1 ≤ (t :: rest).length
      ∧ truncateOrgIDHeader (t :: rest) M = goJoin "|" ((t :: rest).take (k + 1))
      ∧ (goJoin "|" ((t :: rest).take (k + 1))).length ≤ M
      ∧ ∀ j, j ≤ (t :: rest).length →
          (goJoin "|" ((t :: rest).take j)).length ≤ M → j ≤ k + 1 := by
  obtain ⟨k, hk, heq, hlen, hmax⟩ := truncateLoop_spec M rest t h
  refine ⟨k, by simpa using Nat.succ_le_succ hk, ?_, ?_, ?_⟩
  · rw [List.take_succ_cons, goJoin_pipe_cons]
    simpa [truncateOrgIDHeader, if_neg (by omega : ¬ M < t.length)] using heq
  · rw [List.take_succ_cons, goJoin_pipe_cons]
    exact hlen
  · intro j hj hlenj
    cases j with
    | zero => exact Nat.zero_le _
    | succ j' =>
      have hj' : j' ≤ rest.length := by simpa using hj
      rw [List.take_succ_cons, goJoin_pipe_cons] at hlenj
      exact Nat.succ_le_succ (hmax j' hj' hlenj)

theorem buildOrgIDHeader_cons (t : String) (rest : List String) (maxLen : Int) :
    buildOrgIDHeader (t :: rest) maxLen =
      if 0 < maxLen ∧ maxLen < ((goJoin "|" (t :: rest)).length : Int) then
        truncateOrgIDHeader (t :: rest) maxLen.toNat
      else goJoin "|" (t :: rest) := by
  simp [buildOrgIDHeader]

/-- C2: with a positive cap the scope header never exceeds the cap, it is the
first tenant cut to the cap when that tenant alone is longer than the cap,
and otherwise it is the pipe-joined longest prefix of the tenant list whose
joined length stays within the cap. -/
theorem C2_scope_header_truncation (tenants : List String) (maxLen : Int) (hpos : 0 < maxLen) :
    ((buildOrgIDHeader tenants maxLen).length : Int) ≤ maxLen
    ∧ (∀ a b, tenants = a :: b → maxLen < (a.length : Int) →
        buildOrgIDHeader tenants maxLen = strTakeChars a maxLen.toNat)
    ∧ (∀ a b, tenants = a :: b → (a.length : Int) ≤ maxLen →
        ∃ k, k ≤ tenants.length
          ∧ buildOrgIDHeader tenants maxLen = goJoin "|" (tenants.take k)
          ∧ ∀ j, j ≤ tenants.length →
              ((goJoin "|" (tenants.take j)).length : Int) ≤ maxLen → j ≤ k) := by
  have hM : ((maxLen.toNat : Int)) = maxLen := Int.toNat_of_nonneg hpos.le
  cases tenants with
  | nil =>
    have h0 : buildOrgIDHeader [] maxLen = "" := rfl
    refine ⟨?_, ?_, ?_⟩
    · rw [h0]
      have : ("" : String).length = 0 := rfl
      omega
    · intro a b hx _
      simp at hx
    · intro a b hx _
      simp at hx
  | cons t rest =>
    by_cases htr : maxLen < ((goJoin "|" (t :: rest)).length : Int)
    · have heq : buildOrgIDHeader (t :: rest) maxLen
          = truncateOrgIDHeader (t :: rest) maxLen.toNat := by
        rw [buildOrgIDHeader_cons, if_pos ⟨hpos, htr⟩]
      by_cases hfirst : maxLen < (t.length : Int)
      · have hM' : maxLen.toNat < t.length := by omega
        have htrunc : truncateOrgIDHeader (t :: rest) maxLen.toNat
            = strTakeChars t maxLen.toNat := by
          simp [truncateOrgIDHeader, if_pos hM']
        have hlen : (strTakeChars t maxLen.toNat).length = maxLen.toNat :=
          strTakeChars_length_of_le t _ (Nat.le_of_lt hM')
        refine ⟨?_, ?_, ?_⟩
        · rw [heq, htrunc, hlen]
          omega
        · intro a b hx _
          injection hx with h1 h2
          subst h1
          rw [heq, htrunc]
        · intro a b hx hle
          injection hx with h1 h2
          subst h1
          exfalso
          omega
      · have hfit : t.length ≤ maxLen.toNat := by omega
        obtain ⟨k, hk1, heq2, hlen2, hmax2⟩ := truncate_fits t rest maxLen.toNat hfit
        refine ⟨?_, ?_, ?_⟩
        · rw [heq, heq2]
          omega
        · intro a b hx hgt
          injection hx with h1 h2
          subst h1
          exfalso
          omega
        · intro a b hx _
          injection hx with h1 h2
          refine ⟨k + 1, hk1, ?_, ?_⟩
          · rw [heq, heq2]
          · intro j hj hjle
            exact hmax2 j hj (by omega)
    · have heq : buildOrgIDHeader (t :: rest) maxLen = goJoin "|" (t :: rest) := by
        rw [buildOrgIDHeader_cons, if_neg (fun h => htr h.2)]
      refine ⟨?_, ?_, ?_⟩
      · rw [heq]
        omega
      · intro a b hx hgt
        injection hx with h1 h2
        subst h1
        exfalso
        have hlen := length_goJoin_pipe_cons t rest
        omega
      · intro a b hx _
        refine ⟨(t :: rest).length, Nat.le_refl _, ?_, ?_⟩
        · rw [heq, List.take_length]
        · intro j hj _
          exact hj

/-- Closed instance of C2 on the second end-to-end scenario of the design
notes: three tenants and an 18 byte cap. -/
theorem C2_scope_header_truncation_witness :
    (0 : Int) < 18
    ∧ ((buildOrgIDHeader ["tenant-a", "tenant-b", "tenant-c"] 18).length : Int) ≤ 18 :=
  ⟨by decide, (C2_scope_header_truncation ["tenant-a", "tenant-b", "tenant-c"] 18 (by decide)).1⟩

/-- Evaluation of the second end-to-end scenario of the design notes: the
joined header is 26 bytes, the cap is 18, and the truncated header is the
17 byte prefix of the first two tenants. -/
theorem scenario_two_header_eval :
    buildOrgIDHeader ["tenant-a", "tenant-b", "tenant-c"] 18 = "tenant-a|tenant-b" := by
  decide

/-- C9: with a non-positive cap the scope header is the plain pipe-join of
the tenant list, and, for tenant lists that respect the invariant that the
empty string is never a tenant, the header is empty exactly when the tenant
list is. -/
theorem C9_no_cap_join (tenants : List String) (maxLen : Int)
    (hle : maxLen ≤ 0) (hmem : "" ∉ tenants) :
    buildOrgIDHeader tenants maxLen = goJoin "|" tenants
    ∧ (buildOrgIDHeader tenants maxLen = "" ↔ tenants = []) := by
  cases tenants with
  | nil => exact ⟨rfl, by simp [buildOrgIDHeader, goJoin]⟩
  | cons t rest =>
    have heq : buildOrgIDHeader (t :: rest) maxLen = goJoin "|" (t :: rest) := by
      rw [buildOrgIDHeader_cons, if_neg (fun h => by omega)]
    refine ⟨heq, ?_⟩
    constructor
    · intro hempty
      exfalso
      rw [heq] at hempty
      have hlen : (goJoin "|" (t :: rest)).length = 0 := by rw [hempty]; rfl
      rw [length_goJoin_pipe_cons] at hlen
      have ht : t.length = 0 := by omega
      have ht' : t = "" := by
        cases t with
        | mk d =>
          have : d.length = 0 := ht
          rw [List.length_eq_zero] at this
          rw [this]
      exact hmem (ht' ▸ List.mem_cons_self t rest)
    · intro hx
      simp at hx

/-- Closed instance of C9 at a two tenant list and cap zero. -/
theorem C9_no_cap_join_witness :
    ((0 : Int) ≤ 0)
    ∧ ("" ∉ (["tenant-a", "tenant-b"] : List String))
    ∧ (buildOrgIDHeader ["tenant-a", "tenant-b"] 0 = goJoin "|" ["tenant-a", "tenant-b"]
      ∧ (buildOrgIDHeader ["tenant-a", "tenant-b"] 0 = ""
          ↔ (["tenant-a", "tenant-b"] : List String) = [])) :=
  ⟨by decide, by decide, C9_no_cap_join ["tenant-a", "tenant-b"] 0 (by decide) (by decide)⟩

/-! ## Header handling, from the service-proxy client

Go http.Header is a map from canonical header names to value slices; it is
modelled as an association list whose keys are pairwise distinct. -/

/-- A header map: keys with their value lists. -/
abbrev Headers := List (String × List String)

/-- The header names filterHeaders drops: the hop-by-hop set plus
Accept-Encoding, exactly the keys of the hopByHop literal in the source. -/
def hopByHopHeaders : List String :=
  ["Connection", "Keep-Alive", "Proxy-Authenticate", "Proxy-Authorization",
    "Te", "Trailers", "Transfer-Encoding", "Upgrade", "Accept-Encoding"]

/-- Translation of filterHeaders: copy every entry whose key is not in the
hop-by-hop set. -/
def filterHeaders : Headers → Headers
  | [] => []
  | (k, vs) :: rest =>
    if hopByHopHeaders.contains k then filterHeaders rest
    else (k, vs) :: filterHeaders rest

/-- Model of http.Header.Add on the association list: append the value to
the entry of the key, or append a fresh entry when the key is new. -/
def headerAdd : Headers → String → String → Headers
  | [], key, value => [(key, [value])]
  | (k, vs) :: rest, key, value =>
    if k == key then (k, vs ++ [value]) :: rest
    else (k, vs) :: headerAdd rest key value

/-- Translation of the merge loop of Client.ProxyHTTP over
opts.AdditionalHeaders: every value of every additional header is added. -/
def addHeaders (h : Headers) (additional : Headers) : Headers :=
  additional.foldl (fun acc kv => kv.2.foldl (fun acc2 v => headerAdd acc2 kv.1 v) acc) h

/-- All values a header map holds under one key. -/
def getValues : Headers → String → List String
  | [], _ => []
  | (k, vs) :: rest, key =>
    if k == key then vs ++ getValues rest key else getValues rest key

/-- The keys of a header map in order. -/
def headerKeys (h : Headers) : List String :=
  h.map Prod.fst

/-- The header set Client.ProxyHTTP hands to ProxyRequest: the filtered
inbound headers, with the additional headers of the options added on top
when options are given. -/
def forwardedHeaders (inbound : Headers) (optsAdditional : Option Headers) : Headers :=
  match optsAdditional with
  | none => filterHeaders inbound
  | some additional => addHeaders (filterHeaders inbound) additional

theorem getValues_eq_nil_of_not_mem (h : Headers) (key : String)
    (hmem : key ∉ headerKeys h) : getValues h key = [] := by
  induction h with
  | nil => rfl
  | cons kv rest ih =>
    obtain ⟨k, vs⟩ := kv
    have hk : ¬ k = key := fun he => hmem (he ▸ List.mem_cons_self k _)
    have hrest : key ∉ headerKeys rest := fun he => hmem (List.mem_cons_of_mem _ he)
    simp [getValues, hk, ih hrest]

theorem headerKeys_cons (k : String) (vs : List String) (rest : Headers) :
    headerKeys ((k, vs) :: rest) = k :: headerKeys rest := rfl

theorem getValues_filterHeaders (h : Headers) (key : String) :
    getValues (filterHeaders h) key
      = if key ∈ hopByHopHeaders then [] else getValues h key := by
  induction h with
  | nil => by_cases hhop : key ∈ hopByHopHeaders <;> simp [filterHeaders, getValues, hhop]
  | cons kv rest ih =>
    obtain ⟨k, vs⟩ := kv
    by_cases hk : k = key
    · subst hk
      by_cases hhop : k ∈ hopByHopHeaders
      · simp [filterHeaders, hhop, getValues, ih]
      · simp [filterHeaders, hhop, getValues, ih]
    · by_cases hhop : k ∈ hopByHopHeaders
      · simp [filterHeaders, hhop, getValues, ih, hk]
      · simp [filterHeaders, hhop, getValues, ih, hk]

theorem headerKeys_filterHeaders_sublist (h : Headers) :
    (headerKeys (filterHeaders h)).Sublist (headerKeys h) := by
  induction h with
  | nil => exact List.Sublist.refl _
  | cons kv rest ih =>
    obtain ⟨k, vs⟩ := kv
    by_cases hhop : k ∈ hopByHopHeaders
    · have h2 : filterHeaders ((k, vs) :: rest) = filterHeaders rest := by
        simp [filterHeaders, hhop]
      rw [h2, headerKeys_cons]
      exact ih.cons k
    · have h2 : filterHeaders ((k, vs) :: rest) = (k, vs) :: filterHeaders rest := by
        simp [filterHeaders, hhop]
      rw [h2, headerKeys_cons, headerKeys_cons]
      exact ih.cons₂ k

theorem nodup_filterHeaders (h : Headers) (hnd : (headerKeys h).Nodup) :
    (headerKeys (filterHeaders h)).Nodup :=
  List.Nodup.sublist (headerKeys_filterHeaders_sublist h) hnd

theorem getValues_headerAdd (h : Headers) (ka v key : String)
    (hnd : (headerKeys h).Nodup) :
    getValues (headerAdd h ka v) key
      = getValues h key ++ (if key = ka then [v] else []) := by
  induction h with
  | nil =>
    by_cases hk : ka = key
    · subst hk
      simp [headerAdd, getValues]
    · simp [headerAdd, getValues, hk, Ne.symm hk]
  | cons kv rest ih =>
    obtain ⟨k, vs⟩ := kv
    rw [headerKeys_cons] at hnd
    obtain ⟨hknotin, hndrest⟩ := List.nodup_cons.mp hnd
    by_cases hka : k = ka
    · subst hka
      by_cases hkey : k = key
      · subst hkey
        have hnil : getValues rest k = [] :=
          getValues_eq_nil_of_not_mem rest k hknotin
        simp [headerAdd, getValues, hnil]
      · simp [headerAdd, getValues, hkey, Ne.symm hkey]
    · by_cases hkey : k = key
      · subst hkey
        simp [headerAdd, getValues, hka, ih hndrest, List.append_assoc]
      · simp [headerAdd, getValues, hka, hkey, ih hndrest]

theorem headerKeys_headerAdd (h : Headers) (ka v : String) :
    headerKeys (headerAdd h ka v)
      = if ka ∈ headerKeys h then headerKeys h else headerKeys h ++ [ka] := by
  induction h with
  | nil => simp [headerAdd, headerKeys]
  | cons kv rest ih =>
    obtain ⟨k, vs⟩ := kv
    by_cases hka : k = ka
    · subst hka
      simp [headerAdd, headerKeys]
    · have hadd : headerAdd ((k, vs) :: rest) ka v = (k, vs) :: headerAdd rest ka v := by
        simp [headerAdd, hka]
      rw [hadd, headerKeys_cons, ih, headerKeys_cons]
      by_cases hmem : ka ∈ headerKeys rest
      · rw [if_pos hmem, if_pos (List.mem_cons_of_mem k hmem)]
      · have hnotin : ka ∉ k :: headerKeys rest := by
          intro hx
          rcases List.mem_cons.mp hx with h1 | h2
          · exact hka h1.symm
          · exact hmem h2
        rw [if_neg hmem, if_neg hnotin, List.cons_append]

theorem nodup_headerAdd (h : Headers) (ka v : String)
    (hnd : (headerKeys h).Nodup) : (headerKeys (headerAdd h ka v)).Nodup := by
  rw [headerKeys_headerAdd]
  by_cases hmem : ka ∈ headerKeys h
  · simpa [hmem] using hnd
  · rw [if_neg hmem]
    rw [List.nodup_append]
    refine ⟨hnd, List.nodup_singleton ka, ?_⟩
    intro a ha hb
    rw [List.mem_singleton] at hb
    exact hmem (hb ▸ ha)

theorem getValues_valuesFold (vs : List String) (ka key : String) :
    ∀ acc : Headers, (headerKeys acc).Nodup →
      getValues (vs.foldl (fun a v => headerAdd a ka v) acc) key
          = getValues acc key ++ (if key = ka then vs else [])
        ∧ (headerKeys (vs.foldl (fun a v => headerAdd a ka v) acc)).Nodup := by
  induction vs with
  | nil =>
    intro acc hnd
    refine ⟨?_, hnd⟩
    split <;> simp
  | cons v vs ih =>
    intro acc hnd
    have h1 := getValues_headerAdd acc ka v key hnd
    have hnd1 := nodup_headerAdd acc ka v hnd
    obtain ⟨ih1, ih2⟩ := ih (headerAdd acc ka v) hnd1
    refine ⟨?_, by rw [List.foldl_cons]; exact ih2⟩
    rw [List.foldl_cons, ih1, h1]
    by_cases hk : key = ka <;> simp [hk]

theorem getValues_addHeaders (additional : Headers) :
    ∀ (acc : Headers) (key : String), (headerKeys acc).Nodup →
      getValues (addHeaders acc additional) key
        = getValues acc key ++ getValues additional key := by
  induction additional with
  | nil =>
    intro acc key _
    simp [addHeaders, getValues]
  | cons kv rest ih =>
    intro acc key hnd
    obtain ⟨ka, vs⟩ := kv
    obtain ⟨hfold, hfoldnd⟩ := getValues_valuesFold vs ka key acc hnd
    have hstep : addHeaders acc ((ka, vs) :: rest)
        = addHeaders (vs.foldl (fun a v => headerAdd a ka v) acc) rest := rfl
    rw [hstep, ih _ key hfoldnd, hfold]
    by_cases hk : ka = key
    · subst hk
      simp [getValues, String.append_assoc]
    · simp [getValues, hk, Ne.symm hk]

/-- C3: the header set the service-proxy client forwards drops exactly the
hop-by-hop headers and Accept-Encoding, keeps every value of every other
inbound header, and appends the values of opts.AdditionalHeaders after the
kept inbound values instead of replacing them. -/
theorem C3_forwarded_headers (inbound additional : Headers)
    (hnd : (headerKeys inbound).Nodup) :
    ∀ key, getValues (forwardedHeaders inbound (some additional)) key
      = (if key ∈ hopByHopHeaders then [] else getValues inbound key)
        ++ getValues additional key := by
  intro key
  show getValues (addHeaders (filterHeaders inbound) additional) key = _
  rw [getValues_addHeaders additional (filterHeaders inbound) key
    (nodup_filterHeaders inbound hnd), getValues_filterHeaders]

/-- Closed instance of C3: an inbound request with Accept, Accept-Encoding
and Connection headers, and an additional X-Scope-OrgID header. -/
theorem C3_forwarded_headers_witness :
    (headerKeys [("Accept", ["application/json"]), ("Accept-Encoding", ["gzip"]),
        ("Connection", ["keep-alive"])]).Nodup
    ∧ getValues (forwardedHeaders
          [("Accept", ["application/json"]), ("Accept-Encoding", ["gzip"]),
            ("Connection", ["keep-alive"])]
          (some [("X-Scope-OrgID", ["game-prod"])])) "Accept-Encoding"
        = (if "Accept-Encoding" ∈ hopByHopHeaders then []
            else getValues [("Accept", ["application/json"]), ("Accept-Encoding", ["gzip"]),
              ("Connection", ["keep-alive"])] "Accept-Encoding")
          ++ getValues [("X-Scope-OrgID", ["game-prod"])] "Accept-Encoding"
    ∧ getValues (forwardedHeaders
          [("Accept", ["application/json"]), ("Accept-Encoding", ["gzip"]),
            ("Connection", ["keep-alive"])]
          (some [("X-Scope-OrgID", ["game-prod"])])) "X-Scope-OrgID"
        = (if "X-Scope-OrgID" ∈ hopByHopHeaders then []
            else getValues [("Accept", ["application/json"]), ("Accept-Encoding", ["gzip"]),
              ("Connection", ["keep-alive"])] "X-Scope-OrgID")
          ++ getValues [("X-Scope-OrgID", ["game-prod"])] "X-Scope-OrgID" :=
  ⟨by decide,
    C3_forwarded_headers _ [("X-Scope-OrgID", ["game-prod"])] (by decide) "Accept-Encoding",
    C3_forwarded_headers _ [("X-Scope-OrgID", ["game-prod"])] (by decide) "X-Scope-OrgID"⟩

/-- Evaluation of the forwarded header set on the witness input: the
hop-by-hop and Accept-Encoding entries are gone, the Accept values survive,
and the scope header is appended. -/
theorem forwarded_headers_eval :
    forwardedHeaders
        [("Accept", ["application/json"]), ("Accept-Encoding", ["gzip"]),
          ("Connection", ["keep-alive"])]
        (some [("X-Scope-OrgID", ["game-prod"])])
      = [("Accept", ["application/json"]), ("X-Scope-OrgID", ["game-prod"])] := by
  decide

/-! ## Service-proxy URL construction, from the proxy client

Client.ProxyHTTP strips the router prefix from the inbound path, substitutes
the root path when nothing is left, and hands the tail with the URL query
values to Client.ProxyRequest, which prepends the configured path prefix and
builds the service-proxy URI on the API server. url.Values is the same
association-list shape as a header map. -/

/-- Query values of a request: keys with their value lists. -/
abbrev Values := List (String × List String)

/-- The key order of Go url.Values.Encode on the pair list. -/
def keyLe (a b : String × List String) : Prop :=
  strLexLe a.1 b.1

instance : DecidableRel keyLe := fun a b =>
  inferInstanceAs (Decidable (strLexLe a.1 b.1))

/-- One hexadecimal digit, upper case, as Go net/url writes percent escapes. -/
def hexDigitUpper (n : Nat) : Char :=
  "0123456789ABCDEF".data.getD n '0'

/-- The characters Go url.QueryEscape leaves unescaped. -/
def isUnreservedQueryChar (c : Char) : Bool :=
  c.isAlphanum || c = '-' || c = '_' || c = '.' || c = '~'

/-- Model of Go url.QueryEscape on one unit: unreserved units survive, the
space becomes a plus, and every other unit becomes a percent escape. -/
def queryEscapeChar (c : Char) : String :=
  if isUnreservedQueryChar c then String.singleton c
  else if c = ' ' then "+"
  else "%" ++ String.singleton (hexDigitUpper (c.toNat / 16 % 16))
    ++ String.singleton (hexDigitUpper (c.toNat % 16))

/-- Model of Go url.QueryEscape. -/
def queryEscape (s : String) : String :=
  String.join (s.data.map queryEscapeChar)

/-- Model of Go url.Values.Encode: keys in sorted order, one key=value piece
per value, pieces joined by ampersands. -/
def urlValuesEncode (q : Values) : String :=
  let sorted := q.insertionSort keyLe
  goJoin "&"
    (sorted.foldr
      (fun kv acc => kv.2.map (fun v => queryEscape kv.1 ++ "=" ++ queryEscape v) ++ acc) [])

/-- The construction-time fields of the proxy Client: target namespace,
target service, target port and the optional service path prefix. -/
structure ProxyClientCfg where
  ns : String
  service : String
  port : Nat
  prefixPath : String

/-- Translation of Client.buildProxyPath: the service-proxy subresource URL
on the API server with the full path behind it. -/
def proxyBasePath (c : ProxyClientCfg) (fullPath : String) : String :=
  "/api/v1/namespaces/" ++ c.ns ++ "/services/" ++ c.service ++ ":"
    ++ toString c.port ++ "/proxy" ++ fullPath

/-- Translation of the request URI built in Client.ProxyRequest: path prefix
plus request path behind the proxy subresource, with the encoded query
string appended when the query value map is non-empty. -/
def proxyRequestURI (c : ProxyClientCfg) (reqPath : String) (query : Values) : String :=
  let fullPath := c.prefixPath ++ reqPath
  let servicePath := proxyBasePath c fullPath
  if 0 < query.length then servicePath ++ "?" ++ urlValuesEncode query
  else servicePath

/-- Translation of the path handling of Client.ProxyHTTP: strip the router
prefix and substitute the root path when the remainder is empty. -/
def stripForward (urlPath toStrip : String) : String :=
  let p := goTrimPfx urlPath toStrip
  if p = "" then "/" else p

/-- The request URI Client.ProxyHTTP causes ProxyRequest to send. -/
def proxyHTTPRequestURI (c : ProxyClientCfg) (toStrip urlPath : String) (query : Values) : String :=
  proxyRequestURI c (stripForward urlPath toStrip) query

/-- C1: the URI sent to the API server is the service-proxy subresource path
followed by the configured path prefix and the inbound path with the strip
prefix removed, with the root path substituted when the remainder is empty,
and the encoded query string is appended exactly when the inbound query
values are non-empty. -/
theorem C1_forwarded_request_uri (c : ProxyClientCfg) (toStrip urlPath : String) (query : Values) :
    proxyHTTPRequestURI c toStrip urlPath query
      = "/api/v1/namespaces/" ++ c.ns ++ "/services/" ++ c.service ++ ":"
          ++ toString c.port ++ "/proxy" ++ c.prefixPath
          ++ (if goTrimPfx urlPath toStrip = "" then "/" else goTrimPfx urlPath toStrip)
          ++ (if query = [] then "" else "?" ++ urlValuesEncode query) := by
  unfold proxyHTTPRequestURI proxyRequestURI proxyBasePath stripForward
  cases query with
  | nil => simp [String.append_assoc, String.append_empty]
  | cons a l => simp [String.append_assoc]

/-- Evaluation of the first end-to-end scenario of the design notes: an
instant query with an encoded selector reaches the documented service-proxy
URI with the query string intact. -/
theorem scenario_one_uri_eval :
    proxyHTTPRequestURI ⟨"observability", "loki", 3100, ""⟩ "/clusters/eu/loki"
        "/clusters/eu/loki/api/v1/query" [("query", ["\x7bjob=\"app\"\x7d"])]
      = "/api/v1/namespaces/observability/services/loki:3100/proxy/api/v1/query?query=%7Bjob%3D%22app%22%7D" := by
  decide

/-! ## EKS token cell, from the cluster connector

The presigned caller-identity URL is produced by the cloud SDK with the
cluster handle bound through the x-k8s-aws-id header; the embedding takes
that URL as an input, as the byte sequence the SDK returns for the cluster
handle. Times are seconds; the Go durations time.Minute and 14*time.Minute
are 60 and 840 seconds. -/

/-- The URL-safe base64 alphabet. -/
def base64URLAlphabet : List Char :=
  "ABCDEFGHIJKLMNOPQRSTUVWXYZabcdefghijklmnopqrstuvwxyz0123456789-_".data

/-- One base64 digit. -/
def base64Digit (n : Nat) : Char :=
  base64URLAlphabet.getD n 'A'

/-- Model of Go base64.RawURLEncoding.EncodeToString: URL-safe alphabet and
no padding. -/
def base64RawURLEncode : List Nat → String
  | [] => ""
  | [b1] =>
    String.singleton (base64Digit (b1 / 4))
      ++ String.singleton (base64Digit (b1 % 4 * 16))
  | [b1, b2] =>
    String.singleton (base64Digit (b1 / 4))
      ++ String.singleton (base64Digit (b1 % 4 * 16 + b2 / 16))
      ++ String.singleton (base64Digit (b2 % 16 * 4))
  | b1 :: b2 :: b3 :: rest =>
    String.singleton (base64Digit (b1 / 4))
      ++ String.singleton (base64Digit (b1 % 4 * 16 + b2 / 16))
      ++ String.singleton (base64Digit (b2 % 16 * 4 + b3 / 64))
      ++ String.singleton (base64Digit (b3 % 64))
      ++ base64RawURLEncode rest

/-- Translation of eksTokenTransport.generateToken: the fixed scheme tag in
front of the unpadded URL-safe base64 encoding of the presigned URL. -/
def generateToken (presignedURL : List Nat) : String :=
  "k8s-aws-v1." ++ base64RawURLEncode presignedURL

/-- The mutable pair the transport guards with its lock. -/
structure TokenCell where
  token : String
  expiry : Int
  deriving DecidableEq

/-- Translation of eksTokenTransport.getToken as a function of the current
time, the presigned URL the SDK would return, and the cell before the call:
the result is the returned token and the cell after the call. -/
def getToken (now : Int) (presignedURL : List Nat) (t : TokenCell) : String × TokenCell :=
  if t.token ≠ "" ∧ now + 60 < t.expiry then (t.token, t)
  else
    let tok := generateToken presignedURL
    (tok, ⟨tok, now + 840⟩)

/-- C5: when the cached token is non-empty and now plus sixty seconds is
still before the expiry, the cached token and cell are returned unchanged;
otherwise the returned token is the scheme tag followed by the unpadded
URL-safe base64 encoding of the presigned caller-identity URL, and it is
stored with expiry now plus fourteen minutes. -/
theorem C5_token_refresh (now : Int) (presignedURL : List Nat) (t : TokenCell) :
    ((t.token ≠ "" ∧ now + 60 < t.expiry) → getToken now presignedURL t = (t.token, t))
    ∧ (¬ (t.token ≠ "" ∧ now + 60 < t.expiry) →
        getToken now presignedURL t
          = ("k8s-aws-v1." ++ base64RawURLEncode presignedURL,
              ⟨"k8s-aws-v1." ++ base64RawURLEncode presignedURL, now + 840⟩)) := by
  constructor
  · intro h
    simp [getToken, h]
  · intro h
    simp [getToken, h, generateToken]

/-- Evaluation of a mint from the empty cell: the three byte URL 01 02 03
encodes to AQID and the expiry lands fourteen minutes after the call. -/
theorem token_mint_eval :
    getToken 0 [1, 2, 3] ⟨"", 0⟩ = ("k8s-aws-v1.AQID", ⟨"k8s-aws-v1.AQID", 840⟩) := by
  decide

/-- Evaluation of a cache hit: a cell whose expiry is far enough out is
returned unchanged. -/
theorem token_cache_eval :
    getToken 0 [1, 2, 3] ⟨"k8s-aws-v1.AQID", 840⟩ = ("k8s-aws-v1.AQID", ⟨"k8s-aws-v1.AQID", 840⟩) := by
  decide

/-! ## Routers, from internal/loki/router.go and internal/mimir/router.go

The two routers share their control flow; they differ in the backend name
inside the not-found message and in the stripped URL segment. A handler
outcome is either a written error response, with its status and the exact
body the JSON encoder produces, or a forward into the proxy client with the
built options. The form passed to a handler stands for the request values
after a successful ParseForm. -/

/-- What a handler does with a request. -/
inductive Outcome where
  | response (status : Nat) (body : String)
  | forward (path : String) (opts : Option Headers)
  deriving DecidableEq

/-- Model of Go url.Values.Get on the form: the first value of the key, or
the empty string when the key is absent or has no values. -/
def formGet (form : Values) (key : String) : String :=
  match form with
  | [] => ""
  | (k, vs) :: rest => if k == key then vs.headD "" else formGet rest key

/-- One hexadecimal digit, lower case, as encoding/json writes escapes. -/
def hexDigitLower (n : Nat) : Char :=
  "0123456789abcdef".data.getD n '0'

/-- Model of the escaping encoding/json applies inside a string: quote,
backslash and the HTML characters are escaped, control characters become
unicode escapes (the exact control forms encoding/json picks for tab and
newlines are collapsed to the unicode form; no message in this code holds
one). -/
def jsonEscapeChar (c : Char) : String :=
  if c = '"' then "\\\""
  else if c = '\\' then "\\\\"
  else if c = '<' then "\\u003c"
  else if c = '>' then "\\u003e"
  else if c = '&' then "\\u0026"
  else if c.toNat < 32 then
    "\\u00" ++ String.singleton (hexDigitLower (c.toNat / 16))
      ++ String.singleton (hexDigitLower (c.toNat % 16))
  else String.singleton c

/-- Escaping of a whole string by encoding/json. -/
def jsonEscape (s : String) : String :=
  String.join (s.data.map jsonEscapeChar)

/-- Translation of Router.writeError: the body json.NewEncoder writes for
the one-key error object, newline included. -/
def writeErrorBody (message : String) : String :=
  "\x7b\"error\":\"" ++ jsonEscape message ++ "\"\x7d\n"

/-- The not-found message of the Loki router. -/
def lokiNotFoundMessage : String :=
  "cluster not found or loki not configured"

/-- The not-found message of the Mimir router. -/
def mimirNotFoundMessage : String :=
  "cluster not found or mimir not configured"

/-- The tenant registry state: the watchers by cluster name, each watcher
represented by its current tenant list. -/
abbrev TenantRegistry := List (String × List String)

/-- Translation of Registry.Tenants: nil for a cluster without a watcher,
the copied tenant list of the watcher otherwise. -/
def registryTenants (reg : TenantRegistry) (clusterName : String) : Option (List String) :=
  match reg.lookup clusterName with
  | none => none
  | some ts => some ts

/-- Translation of Registry.BuildOrgIDHeader: the empty string for a cluster
without a watcher, the watcher's header otherwise. -/
def registryBuildOrgIDHeader (reg : TenantRegistry) (clusterName : String)
    (maxLength : Int) : String :=
  match reg.lookup clusterName with
  | none => ""
  | some ts => buildOrgIDHeader ts maxLength

/-- Translation of Router.buildProxyOptions of both routers: no options when
the registry yields an empty header, otherwise one X-Scope-OrgID header. -/
def buildProxyOptions (reg : TenantRegistry) (clusterName : String)
    (maxLength : Int) : Option Headers :=
  let orgID := registryBuildOrgIDHeader reg clusterName maxLength
  if orgID = "" then none
  else some [("X-Scope-OrgID", [orgID])]

/-- Translation of Router.handleQuery of either router, the message being
the router's not-found message. -/
def handleQuery (clients : List String) (notFoundMessage : String) (reg : TenantRegistry)
    (maxLen : Int) (clusterName : String) (form : Values) : Outcome :=
  if ¬ clusterName ∈ clients then .response 404 (writeErrorBody notFoundMessage)
  else if formGet form "query" = "" then
    .response 400 (writeErrorBody "missing required parameter: query")
  else .forward "/api/v1/query" (buildProxyOptions reg clusterName maxLen)

/-- Translation of Router.handleQueryRange of either router. -/
def handleQueryRange (clients : List String) (notFoundMessage : String) (reg : TenantRegistry)
    (maxLen : Int) (clusterName : String) (form : Values) : Outcome :=
  if ¬ clusterName ∈ clients then .response 404 (writeErrorBody notFoundMessage)
  else if formGet form "query" = "" then
    .response 400 (writeErrorBody "missing required parameter: query")
  else if formGet form "start" = "" ∨ formGet form "end" = "" then
    .response 400 (writeErrorBody "missing required parameters: start and end")
  else .forward "/api/v1/query_range" (buildProxyOptions reg clusterName maxLen)

/-- Translation of Router.handleLabels of either router. -/
def handleLabels (clients : List String) (notFoundMessage : String) (reg : TenantRegistry)
    (maxLen : Int) (clusterName : String) (form : Values) : Outcome :=
  if ¬ clusterName ∈ clients then .response 404 (writeErrorBody notFoundMessage)
  else .forward "/api/v1/labels" (buildProxyOptions reg clusterName maxLen)

/-- C6 counterexample: a range query to a registered cluster with query and
start present and end absent is answered with the plural both-parameter
message, not with a message naming the one missing parameter. -/
theorem C6_range_validation_counterexample :
    handleQueryRange ["p"] mimirNotFoundMessage [] 8192 "p"
        [("query", ["up"]), ("start", ["1"])]
      = .response 400 (writeErrorBody "missing required parameters: start and end")
    ∧ writeErrorBody "missing required parameters: start and end"
        ≠ writeErrorBody "missing required parameter: end" := by
  constructor
  · decide
  · decide

/-- C6 as the code has it: a missing query yields the message naming query,
and when query is present the plural start-and-end message is produced as
soon as at least one of start and end is absent, with no forward in either
case. -/
theorem C6_range_validation (clients : List String) (msg : String) (reg : TenantRegistry)
    (maxLen : Int) (clusterName : String) (form : Values)
    (hreg : clusterName ∈ clients) :
    (formGet form "query" = "" →
      handleQueryRange clients msg reg maxLen clusterName form
        = .response 400 (writeErrorBody "missing required parameter: query"))
    ∧ (formGet form "query" ≠ "" → (formGet form "start" = "" ∨ formGet form "end" = "") →
      handleQueryRange clients msg reg maxLen clusterName form
        = .response 400 (writeErrorBody "missing required parameters: start and end"))
    ∧ (∀ p opts, handleQueryRange clients msg reg maxLen clusterName form = .forward p opts →
        formGet form "query" ≠ "" ∧ formGet form "start" ≠ "" ∧ formGet form "end" ≠ "") := by
  refine ⟨?_, ?_, ?_⟩
  · intro h
    unfold handleQueryRange
    rw [if_neg (not_not_intro hreg), if_pos h]
  · intro hq hse
    unfold handleQueryRange
    rw [if_neg (not_not_intro hreg), if_neg hq, if_pos hse]
  · intro p opts hfwd
    unfold handleQueryRange at hfwd
    rw [if_neg (not_not_intro hreg)] at hfwd
    by_cases hq : formGet form "query" = ""
    · rw [if_pos hq] at hfwd
      exact absurd hfwd (by simp)
    · rw [if_neg hq] at hfwd
      by_cases hse : formGet form "start" = "" ∨ formGet form "end" = ""
      · rw [if_pos hse] at hfwd
        exact absurd hfwd (by simp)
      · push_neg at hse
        exact ⟨hq, hse.1, hse.2⟩

/-- Closed instance of the amended C6: the witness input of the
counterexample reaches the plural message through the amended statement. -/
theorem C6_range_validation_witness :
    handleQueryRange ["p"] mimirNotFoundMessage [] 8192 "p"
        [("query", ["up"]), ("start", ["1"])]
      = .response 400 (writeErrorBody "missing required parameters: start and end") :=
  (C6_range_validation ["p"] mimirNotFoundMessage [] 8192 "p"
      [("query", ["up"]), ("start", ["1"])] (by decide)).2.1 (by decide) (Or.inr (by decide))

/-- C7 counterexample: the body written for an unknown cluster carries the
backend name loki, and the Mimir router the name mimir, not the words logs
and metrics the design notes use. -/
theorem C7_not_found_body_counterexample :
    handleQuery [] lokiNotFoundMessage [] 8192 "nope" []
      = .response 404 (writeErrorBody lokiNotFoundMessage)
    ∧ writeErrorBody lokiNotFoundMessage
        ≠ "\x7b\"error\":\"cluster not found or logs not configured\"\x7d"
    ∧ writeErrorBody mimirNotFoundMessage
        ≠ "\x7b\"error\":\"cluster not found or metrics not configured\"\x7d" := by
  refine ⟨by decide, by decide, by decide⟩

/-- C7 as the code has it: a request naming a cluster with no registered
proxy client is answered with status 404 and the exact encoder output, whose
message names loki for the Loki router and mimir for the Mimir router and
which ends in the encoder's newline. -/
theorem C7_not_found_body (clients : List String) (reg : TenantRegistry) (maxLen : Int)
    (clusterName : String) (form : Values) (h : clusterName ∉ clients) :
    handleQuery clients lokiNotFoundMessage reg maxLen clusterName form
      = .response 404 "\x7b\"error\":\"cluster not found or loki not configured\"\x7d\n"
    ∧ handleQuery clients mimirNotFoundMessage reg maxLen clusterName form
      = .response 404 "\x7b\"error\":\"cluster not found or mimir not configured\"\x7d\n" := by
  constructor
  · unfold handleQuery
    rw [if_pos h]
    decide
  · unfold handleQuery
    rw [if_pos h]
    decide

/-- Closed instance of the amended C7 at an unregistered cluster name. -/
theorem C7_not_found_body_witness :
    handleQuery ["game"] lokiNotFoundMessage [] 8192 "nope" []
      = .response 404 "\x7b\"error\":\"cluster not found or loki not configured\"\x7d\n"
    ∧ handleQuery ["game"] mimirNotFoundMessage [] 8192 "nope" []
      = .response 404 "\x7b\"error\":\"cluster not found or mimir not configured\"\x7d\n" :=
  C7_not_found_body ["game"] [] 8192 "nope" [] (by decide)

/-- C10: for a cluster name without a watcher the tenant registry reports
nil tenants and an empty header for every cap, both routers build no proxy
options from it, and the header set forwarded for such a request carries no
X-Scope-OrgID when the inbound request carried none, while the request is
still forwarded rather than rejected. -/
theorem C10_unknown_cluster_scope (reg : TenantRegistry) (clusterName : String)
    (h : reg.lookup clusterName = none) :
    registryTenants reg clusterName = none
    ∧ (∀ maxLen : Int, registryBuildOrgIDHeader reg clusterName maxLen = "")
    ∧ (∀ maxLen : Int, buildProxyOptions reg clusterName maxLen = none)
    ∧ (∀ (inbound : Headers) (maxLen : Int), getValues inbound "X-Scope-OrgID" = [] →
        getValues (forwardedHeaders inbound (buildProxyOptions reg clusterName maxLen))
          "X-Scope-OrgID" = [])
    ∧ (∀ (clients : List String) (msg : String) (maxLen : Int) (form : Values),
        clusterName ∈ clients →
          handleLabels clients msg reg maxLen clusterName form
            = .forward "/api/v1/labels" none) := by
  have hb : ∀ maxLen : Int, buildProxyOptions reg clusterName maxLen = none := by
    intro m
    simp [buildProxyOptions, registryBuildOrgIDHeader, h]
  refine ⟨?_, ?_, hb, ?_, ?_⟩
  · simp [registryTenants, h]
  · intro m
    simp [registryBuildOrgIDHeader, h]
  · intro inbound m hin
    rw [hb m]
    show getValues (filterHeaders inbound) "X-Scope-OrgID" = []
    rw [getValues_filterHeaders, if_neg (by decide)]
    exact hin
  · intro clients msg m form hcl
    unfold handleLabels
    rw [if_neg (not_not_intro hcl), hb m]

/-- Closed instance of C10 at a registry holding one other cluster. -/
theorem C10_unknown_cluster_scope_witness :
    registryTenants [("game", ["game-prod"])] "nope" = none
    ∧ (∀ maxLen : Int, registryBuildOrgIDHeader [("game", ["game-prod"])] "nope" maxLen = "")
    ∧ (∀ maxLen : Int, buildProxyOptions [("game", ["game-prod"])] "nope" maxLen = none)
    ∧ (∀ (inbound : Headers) (maxLen : Int), getValues inbound "X-Scope-OrgID" = [] →
        getValues (forwardedHeaders inbound
          (buildProxyOptions [("game", ["game-prod"])] "nope" maxLen)) "X-Scope-OrgID" = [])
    ∧ (∀ (clients : List String) (msg : String) (maxLen : Int) (form : Values),
        "nope" ∈ clients →
          handleLabels clients msg [("game", ["game-prod"])] maxLen "nope" form
            = .forward "/api/v1/labels" none) :=
  C10_unknown_cluster_scope [("game", ["game-prod"])] "nope" (by decide)

end ObsProxy
